import Mathlib

/-!
# Verification of the bbcode tokenizer / renderer core (`bbcode.py`)

A shallow embedding of the single-file bbcode-to-HTML converter.  Strings are
modelled as `List Char`; Python's machine behaviour (`str.find` returning `-1`,
dict insertion order, `%`-mapping formatting, the compiled URL regex) is
modelled by explicit executable functions.  Loops that advance a position
cursor are modelled with a fuel argument initialised to `length + 1`; the
Python loops advance the cursor by at least one per iteration whenever the tag
delimiters are nonempty (with an empty `tag_opener` the Python loop never
terminates), so this fuel is never exhausted for any parser considered here.
-/

set_option maxRecDepth 8192

namespace BBCode

/-! ## Python string primitives -/

/-- The characters stripped by Python `str.strip()` (ASCII whitespace). -/
def pyIsSpace (c : Char) : Bool :=
  c == ' ' || c == '\t' || c == '\n' || c == '\r' || c == Char.ofNat 11 || c == Char.ofNat 12

/-- Python `str.strip()`. -/
def pyStrip (l : List Char) : List Char :=
  ((l.dropWhile pyIsSpace).reverse.dropWhile pyIsSpace).reverse

/-- Python `str.lower()` (ASCII inputs). -/
def pyLower (l : List Char) : List Char := l.map Char.toLower

/-- Python `str.split(sep)` for a one-character separator: keeps empty parts. -/
def splitChar (sep : Char) (l : List Char) : List (List Char) :=
  l.foldr
    (fun c acc =>
      match acc with
      | h :: t => if c == sep then [] :: h :: t else (c :: h) :: t
      | [] => [[c]])
    [[]]

/-- Python slice `data[a:b]` (with the usual clamping). -/
def sliceBetween (data : List Char) (a b : Nat) : List Char := (data.take b).drop a

/-- Lowest index of `sub` in the given list (`some 0` immediately for empty `sub`). -/
def pyFindSub (sub : List Char) : List Char → Option Nat
  | [] => if sub.isPrefixOf ([] : List Char) then some 0 else none
  | c :: rest =>
    if sub.isPrefixOf (c :: rest) then some 0 else (pyFindSub sub rest).map (· + 1)

/-- Python `data.find(sub, start)`: the lowest index `i ≥ start` where `sub`
occurs, `-1` when there is none (or when `start` exceeds the length). -/
def pyFind (data sub : List Char) (start : Nat) : Int :=
  if start > data.length then -1
  else
    match pyFindSub sub (data.drop start) with
    | some j => ((start + j : Nat) : Int)
    | none => -1

/-- One step of Python `str.replace` (nonempty needle), with fuel. -/
def strReplaceF (needle repl : List Char) : Nat → List Char → List Char
  | 0, s => s
  | fuel + 1, s =>
    if needle.isPrefixOf s then repl ++ strReplaceF needle repl fuel (s.drop needle.length)
    else
      match s with
      | [] => []
      | c :: rest => c :: strReplaceF needle repl fuel rest

/-- Python `s.replace(needle, repl)`: every non-overlapping occurrence, left to
right, replacements never rescanned.  An empty needle inserts `repl` around
every character, as in Python. -/
def strReplace (s needle repl : List Char) : List Char :=
  if needle.isEmpty then repl ++ (s.map (fun c => c :: repl)).flatten
  else strReplaceF needle repl (s.length + 1) s

/-! ## Dictionaries (Python `dict`: insertion order, assignment overwrites) -/

abbrev OptsDict := List (List Char × List Char)

/-- Python `d[k]` lookup (first — i.e. unique — matching key). -/
def dictGet {α : Type} (d : List (List Char × α)) (k : List Char) : Option α :=
  (d.find? (fun e => e.1 == k)).map (·.2)

/-- Python `d[k] = v`: overwrite in place if the key exists, else append. -/
def dictInsert {α : Type} (d : List (List Char × α)) (k : List Char) (v : α) :
    List (List Char × α) :=
  if d.any (fun e => e.1 == k) then d.map (fun e => if e.1 == k then (k, v) else e)
  else d ++ [(k, v)]

/-! ## The URL autolink regex (`_url_re`)

Model of the compiled pattern
`(?i)\b((?:[a-z][\w-]+:(?:/{1,3}|[a-z0-9%])|www\d{0,3}[.]|[a-z0-9.\-]+[.][a-z]{2,4}/)(?:[^\s()<>]+|\(bal\))+(?:\(bal\)|[^\s!()\[\]{};:.,<>?...]))`:
a word boundary, one of three prefix alternatives, a nonempty body of
non-space/non-angle/non-paren runs or balanced (depth ≤ 2) paren groups, and a
tail constraint that forbids the match ending in punctuation (modelled by
trimming trailing punctuation back to the last safe end character or a
closing parenthesis). -/

/-- Regex `\w` over ASCII. -/
def wordChar (c : Char) : Bool := c.isAlphanum || c == '_'

/-- Regex `\s` over ASCII. -/
def pyWhitespace (c : Char) : Bool :=
  c == ' ' || c == '\t' || c == '\n' || c == '\r' || c == Char.ofNat 11 || c == Char.ofNat 12

/-- Regex `\b` between the previous character (if any) and the current one. -/
def boundaryOk (prev : Option Char) (c : Char) : Bool :=
  match prev with
  | none => wordChar c
  | some p => wordChar p != wordChar c

/-- Body characters `[^\s()<>]`. -/
def plainChar (c : Char) : Bool :=
  !(pyWhitespace c || c == '(' || c == ')' || c == '<' || c == '>')

/-- Characters allowed to end a match: not whitespace and not in the regex's
final exclusion class (backtick, quotes, brackets, braces, punctuation). -/
def safeEndChar (c : Char) : Bool :=
  !(pyWhitespace c || c == Char.ofNat 96 || c == '!' || c == '(' || c == ')' ||
    c == '[' || c == ']' || c == Char.ofNat 123 || c == Char.ofNat 125 ||
    c == ';' || c == ':' || c == Char.ofNat 39 || c == '"' || c == '.' ||
    c == ',' || c == '<' || c == '>' || c == '?')

/-- Scan the inside of a paren group (depth starts at 1, at most one nested
level, chars restricted to `[^\s()<>]`); returns the number of characters
consumed including the closing parenthesis. -/
def pgAux : List Char → Nat → Nat → Option Nat
  | [], _, _ => none
  | c :: rest, depth, n =>
    if c == ')' then (if depth ≤ 1 then some (n + 1) else pgAux rest (depth - 1) (n + 1))
    else if c == '(' then (if depth ≥ 2 then none else pgAux rest (depth + 1) (n + 1))
    else if pyWhitespace c || c == '<' || c == '>' then none
    else pgAux rest depth (n + 1)

/-- Length of a balanced paren group `\(([^\s()<>]+|(\([^\s()<>]+\)))*\)`
at the head of the list, if any. -/
def parenGroupLen (l : List Char) : Option Nat :=
  match l with
  | '(' :: rest => (pgAux rest 1 0).map (· + 1)
  | _ => none

/-- Greedy body `(?:[^\s()<>]+|\(bal\))*` length, with fuel. -/
def bodyLenF : Nat → List Char → Nat
  | 0, _ => 0
  | fuel + 1, l =>
    let r := (l.takeWhile plainChar).length
    if r > 0 then r + bodyLenF fuel (l.drop r)
    else
      match parenGroupLen l with
      | some g => g + bodyLenF fuel (l.drop g)
      | none => 0

def bodyLen (l : List Char) : Nat := bodyLenF (l.length + 1) l

/-- Prefix alternative `[a-z][\w-]+:(?:/{1,3}|[a-z0-9%])` (case-insensitive). -/
def matchA (l : List Char) : Option Nat :=
  match l with
  | [] => none
  | c :: rest =>
    if c.isAlpha then
      let run := rest.takeWhile (fun d => wordChar d || d == '-')
      if run.length ≥ 1 then
        match rest.drop run.length with
        | ':' :: rest2 =>
          let slashes := (rest2.takeWhile (fun d => d == '/')).length
          if slashes ≥ 1 then some (1 + run.length + 1 + min slashes 3)
          else
            match rest2 with
            | d :: _ => if d.isAlphanum || d == '%' then some (1 + run.length + 1 + 1) else none
            | [] => none
        | _ => none
      else none
    else none

/-- Prefix alternative `www\d{0,3}[.]` (case-insensitive). -/
def matchB (l : List Char) : Option Nat :=
  match l with
  | a :: b :: c :: rest =>
    if a.toLower == 'w' && b.toLower == 'w' && c.toLower == 'w' then
      let digs := (rest.takeWhile Char.isDigit).length
      if digs ≤ 3 then
        match rest.drop digs with
        | '.' :: _ => some (3 + digs + 1)
        | _ => none
      else none
    else none
  | _ => none

/-- Characters of the host class `[a-z0-9.\-]` (case-insensitive). -/
def classC (c : Char) : Bool := c.isAlphanum || c == '.' || c == '-'

/-- Try alternative `[a-z0-9.\-]+[.][a-z]{2,4}/` with the `+` taking `jj`
characters (the caller guarantees those are in the class). -/
def matchCAt (l : List Char) (jj : Nat) : Option Nat :=
  match l.drop jj with
  | '.' :: rest =>
    let letters := (rest.takeWhile Char.isAlpha).length
    if 2 ≤ letters ∧ letters ≤ 4 then
      match rest.drop letters with
      | '/' :: _ => some (jj + 1 + letters + 1)
      | _ => none
    else none
  | _ => none

/-- Backtracking over the greedy `+`: longest first part first. -/
def matchCAux (l : List Char) : Nat → Option Nat
  | 0 => none
  | jj + 1 =>
    match matchCAt l (jj + 1) with
    | some m => some m
    | none => matchCAux l jj

/-- Prefix alternative `[a-z0-9.\-]+[.][a-z]{2,4}/`. -/
def matchC (l : List Char) : Option Nat :=
  let r := (l.takeWhile classC).length
  if r ≥ 2 then matchCAux l (r - 1) else none

/-- Trim the greedy body back until the match ends in a closing parenthesis or
a safe end character (the regex's final alternative); `none` when nothing of
the body survives. -/
def trimEnd (l : List Char) (pl : Nat) : Nat → Option Nat
  | 0 => none
  | t + 1 =>
    if t + 1 ≤ pl then none
    else
      match l[t]? with
      | some c => if c == ')' || safeEndChar c then some (t + 1) else trimEnd l pl t
      | none => trimEnd l pl t

/-- Length of a URL match at the head of `l`, if any: a prefix alternative
(tried in the pattern's order), then a nonempty body, then the tail trim. -/
def matchUrl (l : List Char) : Option Nat :=
  let pre :=
    match matchA l with
    | some m => some m
    | none =>
      match matchB l with
      | some m => some m
      | none => matchC l
  match pre with
  | none => none
  | some pl =>
    let b := bodyLen (l.drop pl)
    if b = 0 then none else trimEnd l pl (pl + b)

/-- `_url_re.sub(r'<a href="\1">\1</a>', data)`: leftmost non-overlapping
matches, each wrapped in an anchor; `\b` is judged against the original text. -/
def urlSubF : Nat → Option Char → List Char → List Char
  | 0, _, l => l
  | fuel + 1, prev, l =>
    match l with
    | [] => []
    | c :: rest =>
      match (if boundaryOk prev c then matchUrl (c :: rest) else none) with
      | some m =>
        if 0 < m then
          let u := (c :: rest).take m
          "<a href=\"".data ++ u ++ "\">".data ++ u ++ "</a>".data ++
            urlSubF fuel (some (u.getLastD c)) ((c :: rest).drop m)
        else c :: urlSubF fuel (some c) rest
      | none => c :: urlSubF fuel (some c) rest

def urlSub (l : List Char) : List Char := urlSubF (l.length + 1) none l

/-! ## Data model: `TagOptions`, tokens, the parser -/

/-- `TagOptions`: per-tag flags, with the class-level defaults of `bbcode.py`. -/
structure TagOptions where
  tag_name : List Char := []
  newline_closes : Bool := false
  standalone : Bool := false
  render_embedded : Bool := true
  transform_newlines : Bool := true
  escape_html : Bool := true
  replace_links : Bool := true
  replace_cosmetic : Bool := true
deriving DecidableEq, Repr

/-- A token: the 4-tuple `(token_type, tag_name, tag_options, token_text)` as a
tagged union (fields that are `None` for a given type are dropped). -/
inductive Token where
  | tagStart (tag_name : List Char) (tag_opts : Option OptsDict) (token_text : List Char)
  | tagEnd (tag_name : List Char) (token_text : List Char)
  | newline (token_text : List Char)
  | data (token_text : List Char)
deriving DecidableEq, Repr

/-- The `token_text` field: the exact substring the token was derived from. -/
def Token.text : Token → List Char
  | .tagStart _ _ t => t
  | .tagEnd _ t => t
  | .newline t => t
  | .data t => t

def Token.isNewline : Token → Bool
  | .newline _ => true
  | _ => false

def Token.isData : Token → Bool
  | .data _ => true
  | _ => false

def Token.isStartOf (name : List Char) : Token → Bool
  | .tagStart n _ _ => n == name
  | _ => false

def Token.isEndOf (name : List Char) : Token → Bool
  | .tagEnd n _ => n == name
  | _ => false

/-- Concatenation of every token's literal text, in order. -/
def concatTokenText (ts : List Token) : List Char := (ts.map Token.text).flatten

/-- A render callback `(value, options, parent) -> string`.  The user context
argument of the Python callback signature is threaded through opaquely by the
engine and never inspected, so it is omitted from the model. -/
abbrev RenderFunc := Option (List Char) → Option OptsDict → Option TagOptions → List Char

/-- The `Parser` object: constructor arguments plus the registry
(`recognized_tags`), with the `__init__` defaults. -/
structure Parser where
  tag_opener : List Char := "[".data
  tag_closer : List Char := "]".data
  newline : List Char := "<br />".data
  normalize_newlines : Bool := true
  escape_html : Bool := true
  replace_cosmetic : Bool := true
  replace_links : Bool := true
  recognized_tags : List (List Char × (RenderFunc × TagOptions)) := []

/-- `Parser.REPLACE_ESCAPE`. -/
def REPLACE_ESCAPE : List (List Char × List Char) :=
  [("&".data, "&amp;".data), ("<".data, "&lt;".data), (">".data, "&gt;".data)]

/-- `Parser.REPLACE_COSMETIC`. -/
def REPLACE_COSMETIC : List (List Char × List Char) :=
  [("---".data, "&mdash;".data), ("--".data, "&ndash;".data), ("...".data, "&#8230;".data),
   ("(c)".data, "&copy;".data), ("(reg)".data, "&reg;".data), ("(tm)".data, "&trade;".data)]

/-- `Parser._replace`: apply each `(find, repl)` pair in order. -/
def replaceAll (data : List Char) (replacements : List (List Char × List Char)) : List Char :=
  replacements.foldl (fun d r => strReplace d r.1 r.2) data

/-! ## Option and tag parsing -/

/-- State of the `_parse_opts` character scan. -/
structure OptsState where
  name : Option (List Char) := none
  opts : OptsDict := []
  in_value : Bool := false
  in_quote : Bool := false
  attr : List Char := []
  value : List Char := []

/-- One character of the `_parse_opts` loop body (including the trailing
`if attr and pos == len(data) - 1` commit). -/
def parseOptsStep (dlen : Nat) (st : OptsState) (pc : Nat × Char) : OptsState :=
  let pos := pc.1
  let ch := pc.2
  let st :=
    if st.in_value then
      if st.in_quote then
        if ch = '"' then { st with in_quote := false }
        else { st with value := st.value ++ [ch] }
      else
        if ch = '"' then { st with in_quote := true }
        else if ch = ' ' then
          { st with opts := dictInsert st.opts st.attr st.value, attr := [], value := [],
                    in_value := false }
        else { st with value := st.value ++ [ch] }
    else
      if ch = '=' then
        { st with in_value := true, name := if st.name.isNone then some st.attr else st.name }
      else if ch = ' ' then
        if st.name.isNone then { st with name := some st.attr, attr := [] }
        else if st.attr ≠ [] then { st with opts := dictInsert st.opts st.attr [], attr := [] }
        else { st with attr := [] }
      else { st with attr := st.attr ++ [ch] }
  if st.attr ≠ [] ∧ pos = dlen - 1 then { st with opts := dictInsert st.opts st.attr st.value }
  else st

/-- `Parser._parse_opts`: finite-state scan of the option text; returns the
primary name (if one was captured) and the options mapping. -/
def parse_opts (data : List Char) : Option (List Char) × OptsDict :=
  let st := data.enum.foldl (parseOptsStep data.length) {}
  (st.name, st.opts)

/-- `Parser._parse_tag`: decide whether the bracketed text is a tag, whether it
is a closer, and parse options; returns `(valid, tag_name, closer, opts)`. -/
def parse_tag (p : Parser) (tag : List Char) : Bool × List Char × Bool × Option OptsDict :=
  if (¬ p.tag_opener.isPrefixOf tag) ∨ (¬ p.tag_closer.isSuffixOf tag) ∨
      ('\n' ∈ tag) ∨ ('\r' ∈ tag) then
    (false, tag, false, none)
  else
    -- Python slice `tag[len(opener):-len(closer)]` (the `-0` edge gives `''`)
    let inner :=
      if p.tag_closer.length = 0 then []
      else (tag.take (tag.length - p.tag_closer.length)).drop p.tag_opener.length
    let tag_name := pyStrip inner
    if tag_name = [] then (false, tag, false, none)
    else
      let (tag_name, closer) :=
        match tag_name with
        | '/' :: rest => (rest, true)
        | _ => (tag_name, false)
      let (tag_name, opts) :=
        if (('=' ∈ tag_name) ∨ (' ' ∈ tag_name)) ∧ ¬ closer then
          let r := parse_opts tag_name
          -- `_parse_opts` always sets the name here since a `=` or space occurs
          (r.1.getD [], some r.2)
        else (tag_name, none)
      (true, pyLower (pyStrip tag_name), closer, opts)

/-! ## Tokenizer -/

/-- `Parser._newline_tokenize`: split tag-free text on `\n` into DATA and
NEWLINE tokens whose texts concatenate back to the input. -/
def newline_tokenize (data : List Char) : List Token :=
  let parts := splitChar '\n' data
  (parts.enum.map (fun np =>
    (if np.2 ≠ [] then [Token.data np.2] else []) ++
    (if np.1 < parts.length - 1 then [Token.newline ['\n']] else []))).flatten

/-- The `while` loop of `Parser.tokenize`, with fuel (the Python loop advances
`pos` by at least one per iteration whenever `tag_opener` is nonempty, so fuel
`data.length + 1` is never exhausted; with an empty opener Python loops
forever).  The `break` statements are modelled by emitting the post-loop
trailing run `data[pos:]` directly — note that Python does NOT advance `pos`
past already-emitted leading data before an unmatched-opener `break`. -/
def tokenizeLoop (p : Parser) (data : List Char) : Nat → Nat → List Token
  | 0, pos => if pos < data.length then newline_tokenize (data.drop pos) else []
  | fuel + 1, pos =>
    if pos < data.length then
      let start := pyFind data p.tag_opener pos
      if (pos : Int) ≤ start then
        let s := start.toNat
        -- data between this start and the last end
        let pre := if pos < s then newline_tokenize (sliceBetween data pos s) else []
        let endp := pyFind data p.tag_closer s
        -- does another tag open before this one closes?
        let new_check := pyFind data p.tag_opener (s + p.tag_opener.length)
        if 0 < new_check ∧ new_check < endp then
          pre ++ newline_tokenize (sliceBetween data s new_check.toNat) ++
            tokenizeLoop p data fuel new_check.toNat
        else if start < endp then
          let e := endp.toNat
          let tag := sliceBetween data s (e + p.tag_closer.length)
          let r := parse_tag p tag
          let tagTokens :=
            if r.1 ∧ (dictGet p.recognized_tags r.2.1).isSome then
              if r.2.2.1 then [Token.tagEnd r.2.1 tag] else [Token.tagStart r.2.1 r.2.2.2 tag]
            else newline_tokenize tag
          pre ++ tagTokens ++ tokenizeLoop p data fuel (e + p.tag_closer.length)
        else
          -- an unmatched `[`: break, then the post-loop append of data[pos:]
          -- (pos unchanged, so `pre` text is emitted again)
          pre ++ newline_tokenize (data.drop pos)
      else
        -- no more tags left to parse: break, then the post-loop append
        newline_tokenize (data.drop pos)
    else []

/-- `Parser.tokenize`: optional newline normalization, then the scan loop. -/
def tokenize (p : Parser) (data : List Char) : List Token :=
  let data :=
    if p.normalize_newlines then
      strReplace (strReplace data "\r\n".data "\n".data) "\r".data "\n".data
    else data
  tokenizeLoop p data (data.length + 1) 0

/-! ## Closing-token matcher -/

/-- `Parser._find_closing_token`, relative form: scanning the tokens after the
tag's start token (Python's `_find_closing_token(tag, tokens, pos)` equals
`pos` plus this function on `tokens.drop pos` with `embed_count = 0`).
Returns the offset of the closing token, or the length when there is none. -/
def find_closing_token (tag : TagOptions) : List Token → Nat → Nat
  | [], _ => 0
  | t :: rest, embed_count =>
    if tag.newline_closes && t.isNewline then 0
    else if t.isStartOf tag.tag_name then find_closing_token tag rest (embed_count + 1) + 1
    else if t.isEndOf tag.tag_name then
      if embed_count > 0 then find_closing_token tag rest (embed_count - 1) + 1 else 0
    else find_closing_token tag rest embed_count + 1

/-! ## Text transform and renderer -/

/-- `Parser._transform`: escaping, then cosmetic substitution, then
autolinking, each gated by its per-tag flag AND the parser-global flag. -/
def transform (p : Parser) (data : List Char)
    (escape_html replace_links replace_cosmetic : Bool) : List Char :=
  let data := if p.escape_html && escape_html then replaceAll data REPLACE_ESCAPE else data
  let data := if p.replace_cosmetic && replace_cosmetic then replaceAll data REPLACE_COSMETIC else data
  if p.replace_links && replace_links then urlSub data else data

/-- The per-DATA-token effective escape flag: the enclosing tag's when there is
one, else the parser's own. -/
def effective_escape (p : Parser) (parent : Option TagOptions) : Bool :=
  match parent with
  | none => p.escape_html
  | some t => t.escape_html

def effective_links (p : Parser) (parent : Option TagOptions) : Bool :=
  match parent with
  | none => p.replace_links
  | some t => t.replace_links

def effective_cosmetic (p : Parser) (parent : Option TagOptions) : Bool :=
  match parent with
  | none => p.replace_cosmetic
  | some t => t.replace_cosmetic

/-- `Parser._format_tokens`, in head-of-list form (the Python index cursor
`idx` corresponds to the dropped prefix; `subtokens = tokens[idx+1:end]` is
`rest.take e` and the continuation at `idx = end + 1` is `rest.drop (e+1)`).
Fuel bounds the recursion depth; every recursive call is on a strictly
shorter list, so fuel `tokens.length + 1` is never exhausted.  A TAG_START
whose name is missing from the registry would raise `KeyError` in Python;
`tokenize` never emits one, and the model skips it. -/
def format_tokens (p : Parser) : Nat → List Token → Option TagOptions → List Char
  | 0, _, _ => []
  | fuel + 1, tokens, parent =>
    match tokens with
    | [] => []
    | tok :: rest =>
      match tok with
      | .tagStart tag_name tag_opts _ =>
        match dictGet p.recognized_tags tag_name with
        | none => format_tokens p fuel rest parent
        | some rt =>
          let render_func := rt.1
          let tag := rt.2
          if tag.standalone then
            render_func none tag_opts parent ++ format_tokens p fuel rest parent
          else
            -- first, find the extent of this tag's tokens
            let e := find_closing_token tag rest 0
            let subtokens := rest.take e
            let inner :=
              if tag.render_embedded then format_tokens p fuel subtokens (some tag)
              else
                let joined :=
                  transform p (concatTokenText subtokens)
                    tag.escape_html tag.replace_links tag.replace_cosmetic
                if tag.transform_newlines then strReplace joined "\n".data p.newline else joined
            render_func (some inner) tag_opts parent ++
              format_tokens p fuel (rest.drop (e + 1)) parent
      | .tagEnd _ _ => format_tokens p fuel rest parent
      | .newline token_text =>
        (match parent with
         | none => p.newline
         | some t => if t.transform_newlines then p.newline else token_text) ++
          format_tokens p fuel rest parent
      | .data token_text =>
        transform p token_text (effective_escape p parent) (effective_links p parent)
            (effective_cosmetic p parent) ++
          format_tokens p fuel rest parent

/-- `_format_tokens` with its standard fuel. -/
def formatTokens (p : Parser) (tokens : List Token) (parent : Option TagOptions) : List Char :=
  format_tokens p (tokens.length + 1) tokens parent

/-- `Parser.format`. -/
def format (p : Parser) (data : List Char) : List Char :=
  formatTokens p (tokenize p data) none

/-- The texts collected by the `Parser.strip` loop. -/
def stripTexts (strip_newlines : Bool) : List Token → List (List Char)
  | [] => []
  | t :: rest =>
    match t with
    | .data token_text => token_text :: stripTexts strip_newlines rest
    | .newline token_text =>
      if strip_newlines then stripTexts strip_newlines rest
      else token_text :: stripTexts strip_newlines rest
    | _ => stripTexts strip_newlines rest

/-- `Parser.strip`. -/
def strip (p : Parser) (data : List Char) (strip_newlines : Bool) : List Char :=
  (stripTexts strip_newlines (tokenize p data)).flatten

/-! ## Default formatters -/

/-- Python `%`-formatting with a mapping, restricted to the `%(key)s` and `%%`
forms used by the templates (other forms raise in Python). -/
def pyFormatMapF (d : OptsDict) : Nat → List Char → List Char
  | 0, _ => []
  | fuel + 1, l =>
    match l with
    | [] => []
    | '%' :: '(' :: rest =>
      let key := rest.takeWhile (fun c => c ≠ ')')
      (match rest.drop key.length with
       | ')' :: 's' :: tail => (dictGet d key).getD [] ++ pyFormatMapF d fuel tail
       | _ => [])
    | '%' :: '%' :: rest => '%' :: pyFormatMapF d fuel rest
    | c :: rest => c :: pyFormatMapF d fuel rest

def pyFormatMap (d : OptsDict) (template : List Char) : List Char :=
  pyFormatMapF d (template.length + 1) template

/-- The `_render` closure of `add_simple_formatter`: `fmt = {}` updated with
the options then with `{'value': value}`, applied to the template (Python's
`str(None)` is `"None"`). -/
def simpleRender (template : List Char) : RenderFunc :=
  fun value options _parent =>
    pyFormatMap (dictInsert (options.getD []) "value".data (value.getD "None".data)) template

/-- `Parser.add_formatter`: normalize the name, build the options (the keyword
arguments are modelled as a record updater), store in the registry. -/
def add_formatter (p : Parser) (tag_name : List Char) (render_func : RenderFunc)
    (kwargs : TagOptions → TagOptions) : Parser :=
  let options := kwargs { tag_name := pyLower (pyStrip tag_name) }
  { p with recognized_tags := dictInsert p.recognized_tags options.tag_name (render_func, options) }

/-- `Parser.add_simple_formatter`. -/
def add_simple_formatter (p : Parser) (tag_name template : List Char)
    (kwargs : TagOptions → TagOptions) : Parser :=
  add_formatter p tag_name (simpleRender template) kwargs

/-- `Parser.install_default_formatters`. -/
def install_default_formatters (p : Parser) : Parser :=
  let p := add_simple_formatter p "b".data "<strong>%(value)s</strong>".data id
  let p := add_simple_formatter p "i".data "<em>%(value)s</em>".data id
  let p := add_simple_formatter p "list".data "<ul>%(value)s</ul>".data
    (fun o => { o with transform_newlines := false })
  let p := add_simple_formatter p "*".data "<li>%(value)s</li>".data
    (fun o => { o with newline_closes := true })
  let p := add_simple_formatter p "url".data "<a href=\"%(value)s\">%(value)s</a>".data
    (fun o => { o with replace_links := false, replace_cosmetic := false })
  add_simple_formatter p "quote".data "<blockquote>%(value)s</blockquote>".data id

/-- `Parser()` with all constructor defaults (`install_defaults=True`). -/
def defaultParser : Parser := install_default_formatters {}

/-! ## Specification-side definitions used by the theorems -/

/-- Substring occurrence test (via the search primitive). -/
def occursIn (needle hay : List Char) : Bool := (pyFindSub needle hay).isSome

/-- Number of TagStart tokens with the given name. -/
def countStarts (name : List Char) (ts : List Token) : Nat := ts.countP (Token.isStartOf name)

/-- Number of TagEnd tokens with the given name. -/
def countEnds (name : List Char) (ts : List Token) : Nat := ts.countP (Token.isEndOf name)

/-- Declarative closing condition for the matcher, at starting nesting level
`e`: position `j` closes the scan when its token is a Newline and the tag has
`newline_closes`, or when it is a same-name TagEnd at nesting depth zero —
i.e. the same-name TagEnds strictly before it balance the same-name TagStarts
strictly before it plus the initial level. -/
def closesAtE (tag : TagOptions) (tokens : List Token) (e : Nat) (j : Nat) : Prop :=
  ∃ t, tokens[j]? = some t ∧
    ((tag.newline_closes = true ∧ t.isNewline = true) ∨
     (t.isEndOf tag.tag_name = true ∧
       countEnds tag.tag_name (tokens.take j) = countStarts tag.tag_name (tokens.take j) + e))

/-- A tag spec with `newline_closes` (the default `[*]` list-item spec). -/
def starTagCE : TagOptions := { tag_name := "*".data, newline_closes := true }

/-- A same-name TagEnd followed by a Newline. -/
def c4TokensCE : List Token := [Token.tagEnd "*".data "[/*]".data, Token.newline "\n".data]

/-- A plain `[b]`-style spec, for the C4 witness. -/
def bTagW : TagOptions := { tag_name := "b".data }

/-- Tokens whose closing token is at index 1. -/
def c4TokensW : List Token := [Token.data "x".data, Token.tagEnd "b".data "[/b]".data]

/-! ## Helper lemmas -/

/-- The matcher never scans past the end of the token list. -/
theorem findClosing_le (tag : TagOptions) :
    ∀ (tokens : List Token) (e : Nat), find_closing_token tag tokens e ≤ tokens.length := by
  intro tokens
  induction tokens with
  | nil => intro e; simp [find_closing_token]
  | cons t rest ih =>
    intro e
    simp only [find_closing_token, List.length_cons]
    split
    · omega
    · split
      · have := ih (e + 1); omega
      · split
        · split
          · have := ih (e - 1); omega
          · omega
        · have := ih e; omega

theorem closesAtE_cons_start (tag : TagOptions) (t : Token) (rest : List Token) (e j : Nat)
    (h : t.isStartOf tag.tag_name = true) :
    closesAtE tag (t :: rest) e (j + 1) ↔ closesAtE tag rest (e + 1) j := by
  have hend : t.isEndOf tag.tag_name = false := by
    cases t <;> simp_all [Token.isStartOf, Token.isEndOf]
  have hcE : countEnds tag.tag_name (t :: rest.take j) = countEnds tag.tag_name (rest.take j) := by
    simp [countEnds, List.countP_cons, hend]
  have hcS : countStarts tag.tag_name (t :: rest.take j) =
      countStarts tag.tag_name (rest.take j) + 1 := by
    simp [countStarts, List.countP_cons, h]
  simp only [closesAtE, List.getElem?_cons_succ, List.take_succ_cons, hcE, hcS]
  constructor
  · rintro ⟨u, hu, hc⟩
    exact ⟨u, hu, hc.imp id fun hx => ⟨hx.1, by omega⟩⟩
  · rintro ⟨u, hu, hc⟩
    exact ⟨u, hu, hc.imp id fun hx => ⟨hx.1, by omega⟩⟩

theorem closesAtE_cons_end (tag : TagOptions) (t : Token) (rest : List Token) (e j : Nat)
    (h : t.isEndOf tag.tag_name = true) :
    closesAtE tag (t :: rest) (e + 1) (j + 1) ↔ closesAtE tag rest e j := by
  have hstart : t.isStartOf tag.tag_name = false := by
    cases t <;> simp_all [Token.isStartOf, Token.isEndOf]
  have hcE : countEnds tag.tag_name (t :: rest.take j) =
      countEnds tag.tag_name (rest.take j) + 1 := by
    simp [countEnds, List.countP_cons, h]
  have hcS : countStarts tag.tag_name (t :: rest.take j) =
      countStarts tag.tag_name (rest.take j) := by
    simp [countStarts, List.countP_cons, hstart]
  simp only [closesAtE, List.getElem?_cons_succ, List.take_succ_cons, hcE, hcS]
  constructor
  · rintro ⟨u, hu, hc⟩
    exact ⟨u, hu, hc.imp id fun hx => ⟨hx.1, by omega⟩⟩
  · rintro ⟨u, hu, hc⟩
    exact ⟨u, hu, hc.imp id fun hx => ⟨hx.1, by omega⟩⟩

theorem closesAtE_cons_other (tag : TagOptions) (t : Token) (rest : List Token) (e j : Nat)
    (h1 : t.isStartOf tag.tag_name = false) (h2 : t.isEndOf tag.tag_name = false) :
    closesAtE tag (t :: rest) e (j + 1) ↔ closesAtE tag rest e j := by
  have hcE : countEnds tag.tag_name (t :: rest.take j) = countEnds tag.tag_name (rest.take j) := by
    simp [countEnds, List.countP_cons, h2]
  have hcS : countStarts tag.tag_name (t :: rest.take j) =
      countStarts tag.tag_name (rest.take j) := by
    simp [countStarts, List.countP_cons, h1]
  simp only [closesAtE, List.getElem?_cons_succ, List.take_succ_cons, hcE, hcS]

/-- Full characterization of `_find_closing_token` at any starting nesting
level: the result is the first position whose token closes (per `closesAtE`),
or the length when no position closes. -/
theorem findClosing_spec (tag : TagOptions) :
    ∀ (tokens : List Token) (e : Nat),
      find_closing_token tag tokens e ≤ tokens.length ∧
      (∀ j, j < find_closing_token tag tokens e → ¬ closesAtE tag tokens e j) ∧
      (find_closing_token tag tokens e < tokens.length →
        closesAtE tag tokens e (find_closing_token tag tokens e)) := by
  intro tokens
  induction tokens with
  | nil =>
    intro e
    refine ⟨by simp [find_closing_token], ?_, ?_⟩
    · intro j hj
      simp [find_closing_token] at hj
    · intro h
      simp [find_closing_token] at h
  | cons t rest ih =>
    intro e
    by_cases h1 : (tag.newline_closes && t.isNewline) = true
    · have hfc : find_closing_token tag (t :: rest) e = 0 := by
        simp [find_closing_token, h1]
      simp only [hfc, List.length_cons]
      refine ⟨Nat.zero_le _, by intro j hj; omega, ?_⟩
      intro _
      rw [Bool.and_eq_true] at h1
      exact ⟨t, by simp, Or.inl ⟨h1.1, h1.2⟩⟩
    · by_cases h2 : t.isStartOf tag.tag_name = true
      · have hfc : find_closing_token tag (t :: rest) e =
            find_closing_token tag rest (e + 1) + 1 := by
          simp [find_closing_token, h1, h2]
        have hend : t.isEndOf tag.tag_name = false := by
          cases t <;> simp_all [Token.isStartOf, Token.isEndOf]
        obtain ⟨ih1, ih2, ih3⟩ := ih (e + 1)
        simp only [hfc, List.length_cons]
        refine ⟨by omega, ?_, ?_⟩
        · intro j hj hcl
          cases j with
          | zero =>
            rcases hcl with ⟨u, hu, hc⟩
            simp only [List.getElem?_cons_zero, Option.some.injEq] at hu
            subst hu
            rcases hc with ⟨hnc, hnl⟩ | ⟨he, _⟩
            · exact h1 (by rw [hnc, hnl]; rfl)
            · rw [hend] at he; exact Bool.false_ne_true he
          | succ j' =>
            rw [closesAtE_cons_start tag t rest e j' h2] at hcl
            exact ih2 j' (by omega) hcl
        · intro hlen
          rw [closesAtE_cons_start tag t rest e _ h2]
          exact ih3 (by omega)
      · by_cases h3 : t.isEndOf tag.tag_name = true
        · have hstart : t.isStartOf tag.tag_name = false := by simpa using h2
          cases e with
          | zero =>
            have hfc : find_closing_token tag (t :: rest) 0 = 0 := by
              simp [find_closing_token, h1, h2, h3]
            simp only [hfc, List.length_cons]
            refine ⟨Nat.zero_le _, by intro j hj; omega, ?_⟩
            intro _
            exact ⟨t, by simp, Or.inr ⟨h3, by simp [countEnds, countStarts]⟩⟩
          | succ e' =>
            have hfc : find_closing_token tag (t :: rest) (e' + 1) =
                find_closing_token tag rest e' + 1 := by
              simp [find_closing_token, h1, h2, h3]
            obtain ⟨ih1, ih2, ih3⟩ := ih e'
            simp only [hfc, List.length_cons]
            refine ⟨by omega, ?_, ?_⟩
            · intro j hj hcl
              cases j with
              | zero =>
                rcases hcl with ⟨u, hu, hc⟩
                simp only [List.getElem?_cons_zero, Option.some.injEq] at hu
                subst hu
                rcases hc with ⟨hnc, hnl⟩ | ⟨_, hcount⟩
                · exact h1 (by rw [hnc, hnl]; rfl)
                · simp [countEnds, countStarts] at hcount
              | succ j' =>
                rw [closesAtE_cons_end tag t rest e' j' h3] at hcl
                exact ih2 j' (by omega) hcl
            · intro hlen
              rw [closesAtE_cons_end tag t rest e' _ h3]
              exact ih3 (by omega)
        · have hstart : t.isStartOf tag.tag_name = false := by simpa using h2
          have hend : t.isEndOf tag.tag_name = false := by simpa using h3
          have hfc : find_closing_token tag (t :: rest) e =
              find_closing_token tag rest e + 1 := by
            simp [find_closing_token, h1, h2, h3]
          obtain ⟨ih1, ih2, ih3⟩ := ih e
          simp only [hfc, List.length_cons]
          refine ⟨by omega, ?_, ?_⟩
          · intro j hj hcl
            cases j with
            | zero =>
              rcases hcl with ⟨u, hu, hc⟩
              simp only [List.getElem?_cons_zero, Option.some.injEq] at hu
              subst hu
              rcases hc with ⟨hnc, hnl⟩ | ⟨he, _⟩
              · exact h1 (by rw [hnc, hnl]; rfl)
              · rw [hend] at he; exact Bool.false_ne_true he
            | succ j' =>
              rw [closesAtE_cons_other tag t rest e j' hstart hend] at hcl
              exact ih2 j' (by omega) hcl
          · intro hlen
            rw [closesAtE_cons_other tag t rest e _ hstart hend]
            exact ih3 (by omega)

/-- The `strip` collection loop keeps exactly the Data tokens and — unless
newlines are stripped — the Newline tokens. -/
theorem stripTexts_eq (sn : Bool) :
    ∀ ts : List Token,
      stripTexts sn ts =
        (ts.filter (fun t => t.isData || (t.isNewline && !sn))).map Token.text := by
  intro ts
  induction ts with
  | nil => rfl
  | cons t rest ih =>
    cases t <;> cases sn <;>
      simp [stripTexts, Token.isData, Token.isNewline, Token.text, ih]

/-! ## Claim theorems -/

/-- C1, counterexample: with the default tag set,
`format("[list][*]a[*]b[/list]")` does NOT produce sibling `<li>` elements —
the claimed output `"<ul><li>a</li><li>b</li></ul>"` is wrong. -/
theorem C1_counterexample :
    format defaultParser "[list][*]a[*]b[/list]".data ≠
      "<ul><li>a</li><li>b</li></ul>".data := by decide

/-- C1, amended: `format("[list][*]a[*]b[/list]")` returns
`"<ul><li>a<li>b</li></li></ul>"`.  A subsequent `[*]` is treated by the
closing-token matcher as the start of a nested same-name tag (it increments
the nesting counter rather than closing the open item), so the second `<li>`
nests inside the first; a list item closes only at a Newline token
(`newline_closes`) or at the end of the enclosing content. -/
theorem C1_amended :
    format defaultParser "[list][*]a[*]b[/list]".data =
      "<ul><li>a<li>b</li></li></ul>".data := by decide

/-- C2, failing input: tokenizing `"abc[def"` emits `Data "abc"` and then
`Data "abc[def"` — the text before the unmatched `[` is emitted a second time
by the post-loop trailing append, because `pos` is not advanced past the
already-emitted leading data before the unmatched-opener `break`.  The
concatenated token text is `"abcabc[def"`, not the input (newline
normalization is the identity on this input), refuting the round-trip
invariant. -/
theorem C2_failing_input :
    tokenize defaultParser "abc[def".data =
      [Token.data "abc".data, Token.data "abc[def".data] ∧
    concatTokenText (tokenize defaultParser "abc[def".data) = "abcabc[def".data ∧
    "abcabc[def".data ≠ "abc[def".data := by decide

/-- C3: a Data token is rendered by applying the text transform to its text
with the effective flags — the enclosing tag's `escape_html` /
`replace_links` / `replace_cosmetic` when there is an enclosing tag, else the
parser's own top-level settings — and appending the result.  The two
concrete renders illustrate the two flag sources: inside `[url]` (whose spec
disables cosmetic replacement) `--` survives, at top level it becomes
`&ndash;`. -/
theorem C3_data_effective_flags :
    (∀ (p : Parser) (txt : List Char) (rest : List Token) (parent : Option TagOptions),
        formatTokens p (Token.data txt :: rest) parent =
          transform p txt (effective_escape p parent) (effective_links p parent)
              (effective_cosmetic p parent) ++
            formatTokens p rest parent) ∧
    format defaultParser "[url]a--b[/url]".data = "<a href=\"a--b\">a--b</a>".data ∧
    format defaultParser "a--b".data = "a&ndash;b".data :=
  ⟨fun _ _ _ _ => rfl, by decide, by decide⟩

/-- C4, counterexample: with `newline_closes` set, the matcher does NOT
always return the index of the first Newline token — a same-name TagEnd at
nesting depth zero occurring earlier is the match.  Here the first Newline is
at index 1, but the matcher returns 0 (the TagEnd). -/
theorem C4_counterexample :
    starTagCE.newline_closes = true ∧
    List.findIdx Token.isNewline c4TokensCE = 1 ∧
    find_closing_token starTagCE c4TokensCE 0 = 0 := by decide

/-- C4, amended: scanning forward from just after the TagStart, the matcher
returns the first position whose token closes the tag, where a token closes
when it is a Newline and the spec has `newline_closes` set (at any nesting
depth), or when it is a same-name TagEnd at nesting depth zero (same-name
TagEnds before it balance same-name TagStarts before it); whichever comes
first wins, and when no token closes, the length of the token list is
returned. -/
theorem C4_amended (tag : TagOptions) (tokens : List Token) :
    find_closing_token tag tokens 0 ≤ tokens.length ∧
    (∀ j, j < find_closing_token tag tokens 0 → ¬ closesAtE tag tokens 0 j) ∧
    (find_closing_token tag tokens 0 < tokens.length →
      closesAtE tag tokens 0 (find_closing_token tag tokens 0)) :=
  findClosing_spec tag tokens 0

/-- C4, witness: the amended characterization applied at a concrete token
list whose closing token (a depth-zero same-name TagEnd) is at index 1. -/
theorem C4_amended_witness : closesAtE bTagW c4TokensW 0 1 :=
  (C4_amended bTagW c4TokensW).2.2 (by decide)

/-- C5: the transform applies escaping, then cosmetic substitution, then
autolinking, each once on the previous pass's output.  Consequently
`format("5 -- 10 < 20")` with default settings is `"5 &ndash; 10 &lt; 20"`,
which contains `"&lt;"` and `"&ndash;"`, and the `&` characters inserted by
escaping are never re-escaped (no `"&amp;"` appears) nor matched by the later
cosmetic or link passes. -/
theorem C5_transform_order :
    format defaultParser "5 -- 10 < 20".data = "5 &ndash; 10 &lt; 20".data ∧
    occursIn "&lt;".data (format defaultParser "5 -- 10 < 20".data) = true ∧
    occursIn "&ndash;".data (format defaultParser "5 -- 10 < 20".data) = true ∧
    occursIn "&amp;".data (format defaultParser "5 -- 10 < 20".data) = false := by decide

/-- C6: an unterminated tag never aborts processing — the matcher always
returns a position no greater than the token-list length (end of input acts
as the implicit close, the remaining tokens becoming the tag's content), and
concretely `format("[b]bold")` returns `"<strong>bold</strong>"`. -/
theorem C6_unterminated_tag :
    (∀ (tag : TagOptions) (tokens : List Token) (e : Nat),
        find_closing_token tag tokens e ≤ tokens.length) ∧
    format defaultParser "[b]bold".data = "<strong>bold</strong>".data :=
  ⟨fun tag tokens e => findClosing_le tag tokens e, by decide⟩

/-- C7: the option parser preserves spaces inside double quotes and strips
the quote characters, commits a bare key as an empty-string presence flag,
and records the key before the first `=` as the primary name while storing
the value under that same key:
`'url="http://test.com/s.php?a=bcd efg" popup'` parses to primary name
`"url"` with options `{"url": "http://test.com/s.php?a=bcd efg", "popup": ""}`. -/
theorem C7_parse_opts_quoted :
    parse_opts "url=\"http://test.com/s.php?a=bcd efg\" popup".data =
      (some "url".data,
        [("url".data, "http://test.com/s.php?a=bcd efg".data), ("popup".data, [])]) := by
  decide

/-- C8: `strip` returns exactly the concatenated text of the Data tokens
(and, when newlines are not stripped, the Newline tokens) of the tokenized
input, in order, discarding all tag tokens; concretely
`strip("[b]hi[/b]\nthere", false)` is `"hi\nthere"` and with
`strip_newlines` it is `"hithere"`. -/
theorem C8_strip_is_plain_text :
    (∀ (p : Parser) (d : List Char) (sn : Bool),
        strip p d sn =
          (((tokenize p d).filter (fun t => t.isData || (t.isNewline && !sn))).map
              Token.text).flatten) ∧
    strip defaultParser "[b]hi[/b]\nthere".data false = "hi\nthere".data ∧
    strip defaultParser "[b]hi[/b]\nthere".data true = "hithere".data :=
  ⟨fun p d sn => by rw [strip, stripTexts_eq], by decide, by decide⟩

/-- C9: the renderer has no branch for TagEnd tokens, so a stray recognized
closing tag is silently skipped — rendering a TagEnd-headed token list just
renders the rest — and concretely `format("x[/b]y")` returns `"xy"`, the
`"[/b]"` text dropped. -/
theorem C9_stray_closer_skipped :
    (∀ (p : Parser) (n txt : List Char) (rest : List Token) (parent : Option TagOptions),
        formatTokens p (Token.tagEnd n txt :: rest) parent = formatTokens p rest parent) ∧
    format defaultParser "x[/b]y".data = "xy".data :=
  ⟨fun _ _ _ _ _ => rfl, by decide⟩

/-- C10: a well-bracketed fragment whose tag name is not registered
tokenizes entirely as Data tokens, so `strip` returns its text verbatim,
brackets included: `strip("[foo]x[/foo]")` is `"[foo]x[/foo]"`. -/
theorem C10_unregistered_tag_verbatim :
    tokenize defaultParser "[foo]x[/foo]".data =
      [Token.data "[foo]".data, Token.data "x".data, Token.data "[/foo]".data] ∧
    strip defaultParser "[foo]x[/foo]".data false = "[foo]x[/foo]".data := by decide

end BBCode
